import Mathlib

/-!
Verification of the response-parsing and recovery pipeline of the QAAI
test-case generator (src/projeto.py), shallowly embedded over `List Char`.
The embedding covers the Code Normalizer (format_code), the Schema
(TestCase / ValidationWithTestCases), the Extractor (parse_llm_response
with its three strategies and terminal fallback) and the Orchestrator
(process_input with its bounded retry loop).
-/

set_option maxRecDepth 100000

namespace QAAI

/-- Characters of a string literal. -/
def str (s : String) : List Char := s.data

/-- The double-quote character. -/
def dquote : Char := Char.ofNat 34

/-- The single-quote character. -/
def squote : Char := Char.ofNat 39

/-- The backslash character. -/
def backslashChar : Char := Char.ofNat 92

/-- The backtick character. -/
def backtick : Char := Char.ofNat 96

/-- The line-feed character. -/
def newlineChar : Char := Char.ofNat 10

/-- The opening curly-brace character. -/
def lbrace : Char := Char.ofNat 123

/-- The closing curly-brace character. -/
def rbrace : Char := Char.ofNat 125

/-- ASCII whitespace as stripped by Python str.strip and matched by the
regex class backslash-s (the embedding models the ASCII subset). -/
def isPySpace (c : Char) : Bool :=
  c == ' ' || c == '\t' || c == newlineChar || c == '\r' ||
    c == Char.ofNat 11 || c == Char.ofNat 12

/-- Drop matching characters from the end of the list. -/
def rdropWhile (p : Char → Bool) (l : List Char) : List Char :=
  ((l.reverse).dropWhile p).reverse

/-- Python str.strip: remove leading and trailing whitespace. -/
def pyStrip (l : List Char) : List Char :=
  rdropWhile isPySpace (l.dropWhile isPySpace)

/-- Python substring test for the two-character escaped-newline sequence
(a backslash followed by the letter n), as in the test
`"\x5c\x5cn" in code_string` of src/projeto.py. -/
def hasEscNl : List Char → Bool
  | c :: d :: rest => (c == backslashChar && d == 'n') || hasEscNl (d :: rest)
  | _ => false

/-- Python str.replace of every escaped-newline sequence by a line feed,
scanning left to right without overlap
(`code_string.replace("\x5c\x5cn", "\x5cn")` in src/projeto.py). -/
def replaceEscNl : List Char → List Char
  | [] => []
  | [c] => [c]
  | c :: d :: rest =>
    if c == backslashChar && d == 'n' then newlineChar :: replaceEscNl rest
    else c :: replaceEscNl (d :: rest)

/-- Python s.startswith(c) and s.endswith(c) for a single character c. -/
def startsAndEndsWith (l : List Char) (c : Char) : Bool :=
  (l.head? == some c) && (l.getLast? == some c)

/-- format_code from src/projeto.py (the Code Normalizer): if the string
already holds a real line break and no escaped newline it is returned
unchanged; otherwise escaped newlines are replaced by real ones, the
result is stripped of surrounding whitespace, and one surrounding pair of
double quotes and then one surrounding pair of single quotes is removed
(Python slice [1:-1] is drop 1 followed by dropLast). -/
def format_code (code_string : List Char) : List Char :=
  if code_string.contains newlineChar && !(hasEscNl code_string) then
    code_string
  else
    let s1 := replaceEscNl code_string
    let s2 := pyStrip s1
    let s3 := if startsAndEndsWith s2 dquote then (s2.drop 1).dropLast else s2
    let s4 := if startsAndEndsWith s3 squote then (s3.drop 1).dropLast else s3
    s4

/-- The TestCase pydantic model of src/projeto.py: one generated test. -/
structure TestCase where
  title : List Char
  description : List Char
  preconditions : List (List Char)
  steps : List (List Char)
  expected_results : List (List Char)
  test_type : List Char
  test_code : List Char
deriving DecidableEq

/-- The ValidationWithTestCases pydantic model of src/projeto.py: the
outer validation envelope.  test_cases defaults to the empty list. -/
structure ValidationWithTestCases where
  is_valid : Bool
  message : List Char
  test_cases : List TestCase
deriving DecidableEq

/-- A JSON value, as produced by the Python json module.  Numbers are
modelled as integers only (no fractions or exponents); this suffices for
the Schema, whose fields are strings, string lists and booleans. -/
inductive JVal where
  | jnull : JVal
  | jbool (b : Bool) : JVal
  | jnum (n : Int) : JVal
  | jstr (s : List Char) : JVal
  | jarr (elems : List JVal) : JVal
  | jobj (members : List (List Char × JVal)) : JVal

/-- JSON inter-token whitespace (space, tab, line feed, carriage return). -/
def isJsonWs (c : Char) : Bool :=
  c == ' ' || c == '\t' || c == newlineChar || c == '\r'

/-- Skip JSON whitespace. -/
def skipWs (l : List Char) : List Char := l.dropWhile isJsonWs

/-- JSON string escape characters (the unicode escape u is not modelled). -/
def escChar : Char → Option Char
  | 'n' => some newlineChar
  | 't' => some '\t'
  | 'r' => some '\r'
  | 'b' => some (Char.ofNat 8)
  | 'f' => some (Char.ofNat 12)
  | '/' => some '/'
  | c =>
    if c = dquote then some dquote
    else if c = backslashChar then some backslashChar
    else none

/-- Parse the body of a JSON string after the opening quote; returns the
decoded characters and the remaining input after the closing quote. -/
def parseStringBody : List Char → Option (List Char × List Char)
  | [] => none
  | c :: rest =>
    if c = dquote then some ([], rest)
    else if c = backslashChar then
      match rest with
      | [] => none
      | e :: rest2 =>
        match escChar e with
        | none => none
        | some d => (parseStringBody rest2).map (fun p => (d :: p.1, p.2))
    else if c.toNat < 32 then none
    else (parseStringBody rest).map (fun p => (c :: p.1, p.2))

/-- Decimal digits to a natural number. -/
def digitsToNat (l : List Char) : Nat :=
  l.foldl (fun a c => a * 10 + (c.toNat - 48)) 0

/-- Parse a JSON integer (optional minus sign and a nonempty digit run). -/
def parseNum : List Char → Option (JVal × List Char)
  | l =>
    match l with
    | c :: rest =>
      if c = '-' then
        match rest.takeWhile Char.isDigit with
        | [] => none
        | ds => some (JVal.jnum (-(digitsToNat ds : Int)), rest.dropWhile Char.isDigit)
      else
        match l.takeWhile Char.isDigit with
        | [] => none
        | ds => some (JVal.jnum (digitsToNat ds), l.dropWhile Char.isDigit)
    | [] => none

mutual

/-- Modelled from the spec: a JSON parser standing in for the Python
json.loads used by src/projeto.py (the json module is an external
library, not part of this repository).  Fuel-driven recursive descent:
parse one JSON value, returning it and the remaining input. -/
def parseVal : Nat → List Char → Option (JVal × List Char)
  | 0, _ => none
  | fuel + 1, l =>
    match skipWs l with
    | 'n' :: 'u' :: 'l' :: 'l' :: rest => some (JVal.jnull, rest)
    | 't' :: 'r' :: 'u' :: 'e' :: rest => some (JVal.jbool true, rest)
    | 'f' :: 'a' :: 'l' :: 's' :: 'e' :: rest => some (JVal.jbool false, rest)
    | c :: rest =>
      if c = dquote then (parseStringBody rest).map (fun p => (JVal.jstr p.1, p.2))
      else if c = '[' then parseArr fuel rest
      else if c = lbrace then parseObj fuel rest
      else parseNum (c :: rest)
    | [] => none

/-- Parse the elements of a JSON array after the opening bracket. -/
def parseArr : Nat → List Char → Option (JVal × List Char)
  | 0, _ => none
  | fuel + 1, l =>
    match skipWs l with
    | ']' :: rest => some (JVal.jarr [], rest)
    | _ =>
      (parseVal fuel l).bind (fun p =>
        (parseElemsRest fuel p.2).map (fun q => (JVal.jarr (p.1 :: q.1), q.2)))

/-- Parse the remaining comma-separated elements of a JSON array. -/
def parseElemsRest : Nat → List Char → Option (List JVal × List Char)
  | 0, _ => none
  | fuel + 1, l =>
    match skipWs l with
    | ',' :: rest =>
      (parseVal fuel rest).bind (fun p =>
        (parseElemsRest fuel p.2).map (fun q => (p.1 :: q.1, q.2)))
    | ']' :: rest => some ([], rest)
    | _ => none

/-- Parse the members of a JSON object after the opening brace. -/
def parseObj : Nat → List Char → Option (JVal × List Char)
  | 0, _ => none
  | fuel + 1, l =>
    match skipWs l with
    | c :: rest =>
      if c = rbrace then some (JVal.jobj [], rest)
      else
        (parseMember fuel l).bind (fun p =>
          (parseMembersRest fuel p.2).map (fun q => (JVal.jobj (p.1 :: q.1), q.2)))
    | [] => none

/-- Parse one key-value member of a JSON object. -/
def parseMember : Nat → List Char → Option ((List Char × JVal) × List Char)
  | 0, _ => none
  | fuel + 1, l =>
    match skipWs l with
    | c :: rest =>
      if c = dquote then
        (parseStringBody rest).bind (fun k =>
          match skipWs k.2 with
          | ':' :: r2 => (parseVal fuel r2).map (fun v => ((k.1, v.1), v.2))
          | _ => none)
      else none
    | [] => none

/-- Parse the remaining comma-separated members of a JSON object. -/
def parseMembersRest : Nat → List Char → Option (List (List Char × JVal) × List Char)
  | 0, _ => none
  | fuel + 1, l =>
    match skipWs l with
    | ',' :: rest =>
      (parseMember fuel rest).bind (fun p =>
        (parseMembersRest fuel p.2).map (fun q => (p.1 :: q.1, q.2)))
    | c :: rest => if c = rbrace then some ([], rest) else none
    | [] => none

end

/-- Modelled from the spec: Python json.loads — parse the whole text as a
single JSON document, allowing surrounding whitespace and nothing else. -/
def jsonLoads (l : List Char) : Option JVal :=
  match parseVal (2 * l.length + 2) l with
  | some (v, rest) => if skipWs rest = [] then some v else none
  | none => none

/-- Lookup of a key in a JSON object; later duplicate keys win, as in the
dictionaries produced by the Python json module. -/
def jlookup (k : List Char) : List (List Char × JVal) → Option JVal
  | [] => none
  | m :: rest =>
    match jlookup k rest with
    | some w => some w
    | none => if m.1 = k then some m.2 else none

/-- A JSON value as a string field. -/
def asStr : JVal → Option (List Char)
  | JVal.jstr s => some s
  | _ => none

/-- A JSON value as a list-of-strings field. -/
def asStrList : JVal → Option (List (List Char))
  | JVal.jarr xs => xs.mapM asStr
  | _ => none

/-- A JSON value as a boolean field. -/
def asBool : JVal → Option Bool
  | JVal.jbool b => some b
  | _ => none

/-- Modelled from the spec: structural validation of one TestCase (field
presence and type conformance, section 4.1 of the spec), standing in for
pydantic model validation, an external library not in this repository.
All seven fields are required; extra members are ignored. -/
def validateTestCase (j : JVal) : Option TestCase :=
  match j with
  | JVal.jobj ms =>
    ((jlookup (str "title") ms).bind asStr).bind (fun title =>
    ((jlookup (str "description") ms).bind asStr).bind (fun description =>
    ((jlookup (str "preconditions") ms).bind asStrList).bind (fun preconditions =>
    ((jlookup (str "steps") ms).bind asStrList).bind (fun steps =>
    ((jlookup (str "expected_results") ms).bind asStrList).bind (fun expected_results =>
    ((jlookup (str "test_type") ms).bind asStr).bind (fun test_type =>
    ((jlookup (str "test_code") ms).bind asStr).bind (fun test_code =>
    some ⟨title, description, preconditions, steps, expected_results,
      test_type, test_code⟩)))))))
  | _ => none

/-- Modelled from the spec: structural validation of the envelope
(section 4.1), standing in for pydantic model validation.  is_valid and
message are required; test_cases is optional and defaults to the empty
list; a present test_cases must be a list of valid TestCase objects. -/
def validateEnv (j : JVal) : Option ValidationWithTestCases :=
  match j with
  | JVal.jobj ms =>
    ((jlookup (str "is_valid") ms).bind asBool).bind (fun iv =>
    ((jlookup (str "message") ms).bind asStr).bind (fun msg =>
    (match jlookup (str "test_cases") ms with
     | none => some []
     | some (JVal.jarr xs) => xs.mapM validateTestCase
     | some _ => none).bind (fun tcs =>
    some ⟨iv, msg, tcs⟩)))
  | _ => none

/-- Modelled from the spec: the strict first strategy of the Extractor —
parse the entire text as a single JSON document conforming exactly to the
Schema (standing in for parser.parse of the external langchain
PydanticOutputParser); a parse or validation error is none. -/
def strictParse (content : List Char) : Option ValidationWithTestCases :=
  (jsonLoads content).bind validateEnv

/-- The content before the earliest occurrence of three consecutive
backticks, together with nothing else; none when no such occurrence
exists.  This is the lazily matched group of the fenced-block regex of
src/projeto.py followed by its closing delimiter. -/
def splitAtFence : List Char → Option (List Char)
  | [] => none
  | c :: rest =>
    if c = backtick ∧ rest.take 2 = [backtick, backtick] then some []
    else (splitAtFence rest).map (fun g => c :: g)

/-- The regex match attempt at one opening fence: rest is the input just
after three consecutive backticks; an optional literal json tag and a
greedy whitespace run are consumed, then the group runs lazily up to the
earliest closing triple backtick. -/
def fenceMatchAt (rest : List Char) : Option (List Char) :=
  splitAtFence ((if rest.take 4 = str "json" then rest.drop 4 else rest).dropWhile isPySpace)

/-- The fenced-block extraction of src/projeto.py: re.search with pattern
triple-backtick, optional json tag, whitespace, lazy group, closing
triple-backtick — the leftmost position where the whole pattern matches,
returning the group. -/
def fencedGroup : List Char → Option (List Char)
  | [] => none
  | c :: rest =>
    if c = backtick ∧ rest.take 2 = [backtick, backtick] then
      match fenceMatchAt (rest.drop 2) with
      | some g => some g
      | none => fencedGroup rest
    else fencedGroup rest

/-- The greedy brace-span extraction of src/projeto.py: re.search with
pattern opening brace, greedy any-characters, closing brace — the
substring from the first opening brace through the last closing brace,
when the latter comes after the former. -/
def braceSpan (l : List Char) : Option (List Char) :=
  match l.dropWhile (fun c => !(c == lbrace)) with
  | [] => none
  | m =>
    match rdropWhile (fun c => !(c == rbrace)) m with
    | [] => none
    | m2 => some m2

/-- The second strategy of parse_llm_response: extract the fenced block
group, strip it, json-parse it and validate it against the Schema. -/
def fencedStrategy (content : List Char) : Option ValidationWithTestCases :=
  (fencedGroup content).bind (fun g => (jsonLoads (pyStrip g)).bind validateEnv)

/-- The third strategy of parse_llm_response: take the brace span,
json-parse it and validate it against the Schema. -/
def braceStrategy (content : List Char) : Option ValidationWithTestCases :=
  (braceSpan content).bind (fun s => (jsonLoads s).bind validateEnv)

/-- The synthesized terminal envelope of parse_llm_response: is_valid
false with a message embedding the first 200 characters of the raw text
between a fixed diagnostic prefix and a fixed ellipsis suffix. -/
def fallbackEnvelope (content : List Char) : ValidationWithTestCases :=
  ⟨false,
    str "Não foi possível analisar a resposta. Erro de formato: " ++
      content.take 200 ++ str "...",
    []⟩

/-- parse_llm_response of src/projeto.py: try the strict parse; on
failure try the fenced-block extraction; on failure try the brace-span
extraction; on failure synthesize the terminal envelope.  Exceptions of
each strategy are absorbed as none and fall through to the next. -/
def parse_llm_response (content : List Char) : ValidationWithTestCases :=
  match strictParse content with
  | some r => r
  | none =>
    match fencedStrategy content with
    | some r => r
    | none =>
      match braceStrategy content with
      | some r => r
      | none => fallbackEnvelope content

/-- The outcome of one attempt of the loop body of process_input up to
and including the model invocation: either an exception (from model
setup, prompt building or invocation — the external collaborators) with
its description, or the raw text of the model response. -/
inductive AttemptOutcome where
  | raise (e : List Char) : AttemptOutcome
  | output (content : List Char) : AttemptOutcome
deriving DecidableEq

/-- The terminal envelope of process_input when the retry budget is spent
on structurally valid but empty results. -/
def genericRetryFailure : ValidationWithTestCases :=
  ⟨false,
    str "Após várias tentativas, não foi possível gerar casos de teste válidos. Por favor, forneça uma descrição mais detalhada.",
    []⟩

/-- The terminal envelope of process_input when the retry budget is spent
and the last attempt raised: the message embeds the attempt total and the
exception description. -/
def errorEnvelope (e : List Char) (max_retries : Nat) : ValidationWithTestCases :=
  ⟨false,
    str "Erro ao processar entrada após " ++ (toString (max_retries + 1)).data ++
      str " tentativas: " ++ e,
    []⟩

/-- The in-place rewriting step of process_input: when the extracted
envelope is valid with test cases, every test_code field is rewritten by
format_code; otherwise the envelope is untouched. -/
def formatResult (r : ValidationWithTestCases) : ValidationWithTestCases :=
  if r.is_valid = true ∧ r.test_cases ≠ [] then
    { r with test_cases :=
        r.test_cases.map (fun tc => { tc with test_code := format_code tc.test_code }) }
  else r

/-- The for-loop of process_input over `range(max_retries + 1)`.  `world`
gives each attempt's outcome, `attempt` is the loop index, and `fuel` is
the number of remaining iterations (process_input starts it at
max_retries + 1; the fuel-zero case is unreachable from there, since the
final iteration, where `attempt < max_retries` fails, always returns).
The result pairs the returned envelope with the number of attempts made. -/
def processLoop (world : Nat → AttemptOutcome) (max_retries : Nat) :
    Nat → Nat → ValidationWithTestCases × Nat
  | _, 0 => (genericRetryFailure, 0)
  | attempt, fuel + 1 =>
    match world attempt with
    | AttemptOutcome.raise e =>
      if attempt < max_retries then
        ((processLoop world max_retries (attempt + 1) fuel).1,
          (processLoop world max_retries (attempt + 1) fuel).2 + 1)
      else (errorEnvelope e max_retries, 1)
    | AttemptOutcome.output content =>
      let result := formatResult (parse_llm_response content)
      if result.is_valid = true ∧ result.test_cases ≠ [] then (result, 1)
      else if result.is_valid = false ∧ result.message ≠ [] then (result, 1)
      else if attempt < max_retries then
        ((processLoop world max_retries (attempt + 1) fuel).1,
          (processLoop world max_retries (attempt + 1) fuel).2 + 1)
      else (genericRetryFailure, 1)

/-- process_input of src/projeto.py (the generate entry point): run the
retry loop from attempt 0 with max_retries + 1 iterations and return the
final envelope.  The embedding is total: every exception of the loop body
is absorbed by the except clause, so no exception escapes to the caller. -/
def process_input (world : Nat → AttemptOutcome) (max_retries : Nat) :
    ValidationWithTestCases :=
  (processLoop world max_retries 0 (max_retries + 1)).1

/-- The number of attempts process_input makes (each attempt enters the
loop body once and performs one model invocation). -/
def invocation_count (world : Nat → AttemptOutcome) (max_retries : Nat) : Nat :=
  (processLoop world max_retries 0 (max_retries + 1)).2

/-- Model output judging the description valid but carrying no test
cases: the retryable empty result. -/
def jsonEmptyValid : List Char :=
  str "\x7b\"is_valid\": true, \"message\": \"\", \"test_cases\": []\x7d"

/-- Model output legitimately rejecting the description. -/
def jsonRejection : List Char :=
  str "\x7b\"is_valid\": false, \"message\": \"Descricao insuficiente para gerar testes.\", \"test_cases\": []\x7d"

/-- Model output with is_valid false and an empty message. -/
def jsonEmptyMessage : List Char :=
  str "\x7b\"is_valid\": false, \"message\": \"\", \"test_cases\": []\x7d"

/-- Model output with is_valid false, a message, and nonetheless a
non-empty test_cases list (schema-valid: no invariant ties the two). -/
def jsonInvalidWithCases : List Char :=
  str "\x7b\"is_valid\": false, \"message\": \"Descricao fraca\", \"test_cases\": [\x7b\"title\": \"t\", \"description\": \"d\", \"preconditions\": [], \"steps\": [\"s1\"], \"expected_results\": [\"r1\"], \"test_type\": \"Funcional\", \"test_code\": \"assert True\"\x7d]\x7d"

/-- Model output with one complete valid test case. -/
def jsonSuccess : List Char :=
  str "\x7b\"is_valid\": true, \"message\": \"\", \"test_cases\": [\x7b\"title\": \"Login OK\", \"description\": \"login valido\", \"preconditions\": [\"usuario cadastrado\"], \"steps\": [\"entrar credenciais\"], \"expected_results\": [\"dashboard exibido\"], \"test_type\": \"Funcional\", \"test_code\": \"\x5c\"def test_login():\x5c\x5cn    assert True\x5c\"\"\x7d]\x7d"

/-- A world whose model returns the successful output on every call. -/
def successWorld : Nat → AttemptOutcome :=
  fun _ => AttemptOutcome.output jsonSuccess

theorem hasEscNl_cons_of_ne (c : Char) (l : List Char) (h : (c == backslashChar) = false) :
    hasEscNl (c :: l) = hasEscNl l := by
  cases l with
  | nil => simp [hasEscNl]
  | cons d rest => simp [hasEscNl, h]

theorem hasEscNl_backslash_cons (l : List Char) :
    hasEscNl (backslashChar :: l) = ((l.head? == some 'n') || hasEscNl l) := by
  cases l with
  | nil => simp [hasEscNl]
  | cons d rest => simp [hasEscNl]

theorem hasEscNl_tail (c : Char) (l : List Char) (h : hasEscNl (c :: l) = false) :
    hasEscNl l = false := by
  cases l with
  | nil => rfl
  | cons d rest =>
    have := h
    simp only [hasEscNl, Bool.or_eq_false_iff] at this
    exact this.2

theorem hasEscNl_dropWhile (p : Char → Bool) (l : List Char)
    (h : hasEscNl l = false) : hasEscNl (l.dropWhile p) = false := by
  induction l with
  | nil => exact h
  | cons c rest ih =>
    rw [List.dropWhile_cons]
    split
    · exact ih (hasEscNl_tail c rest h)
    · exact h

theorem hasEscNl_append_left (l m : List Char) (h : hasEscNl (l ++ m) = false) :
    hasEscNl l = false := by
  induction l with
  | nil => rfl
  | cons c rest ih =>
    rw [List.cons_append] at h
    by_cases hc : (c == backslashChar) = true
    · have hceq : c = backslashChar := eq_of_beq hc
      subst hceq
      rw [hasEscNl_backslash_cons] at h ⊢
      rw [Bool.or_eq_false_iff] at h ⊢
      refine ⟨?_, ih h.2⟩
      cases rest with
      | nil => rfl
      | cons d rest2 =>
        have : ((d :: rest2 ++ m).head? == some 'n') = ((d :: rest2).head? == some 'n') := rfl
        rw [← this]
        exact h.1
    · have hcb : (c == backslashChar) = false := by
        cases hcc : (c == backslashChar) with
        | false => rfl
        | true => exact absurd hcc hc
      rw [hasEscNl_cons_of_ne _ _ hcb] at h ⊢
      exact ih h

theorem hasEscNl_dropLast (l : List Char) (h : hasEscNl l = false) :
    hasEscNl l.dropLast = false := by
  cases hn : l with
  | nil => rfl
  | cons c rest =>
    have hne : l ≠ [] := by simp [hn]
    have := List.dropLast_append_getLast hne
    subst hn
    exact hasEscNl_append_left _ _ (by rw [this]; exact h)

theorem rdropWhile_append_eq (p : Char → Bool) (l : List Char) :
    rdropWhile p l ++ (l.reverse.takeWhile p).reverse = l := by
  unfold rdropWhile
  rw [← List.reverse_append, List.takeWhile_append_dropWhile, List.reverse_reverse]

theorem hasEscNl_rdropWhile (p : Char → Bool) (l : List Char)
    (h : hasEscNl l = false) : hasEscNl (rdropWhile p l) = false := by
  refine hasEscNl_append_left _ ((l.reverse.takeWhile p).reverse) ?_
  rw [rdropWhile_append_eq]
  exact h

theorem hasEscNl_pyStrip (l : List Char) (h : hasEscNl l = false) :
    hasEscNl (pyStrip l) = false :=
  hasEscNl_rdropWhile _ _ (hasEscNl_dropWhile _ _ h)

theorem replaceEscNl_head (d : Char) (l : List Char) :
    (replaceEscNl (d :: l)).head? = some d ∨
      (replaceEscNl (d :: l)).head? = some newlineChar := by
  cases l with
  | nil => left; rfl
  | cons e rest =>
    rw [replaceEscNl]
    split
    · right; rfl
    · left; rfl

theorem hasEscNl_replaceEscNl (l : List Char) :
    hasEscNl (replaceEscNl l) = false := by
  induction l using replaceEscNl.induct with
  | case1 => rfl
  | case2 c => rfl
  | case3 c d rest h ih =>
    rw [replaceEscNl, if_pos h]
    rw [hasEscNl_cons_of_ne _ _ (by decide)]
    exact ih
  | case4 c d rest h ih =>
    rw [replaceEscNl, if_neg h]
    by_cases hc : (c == backslashChar) = true
    · have hceq : c = backslashChar := by exact eq_of_beq hc
      subst hceq
      rw [hasEscNl_backslash_cons]
      have hd : (d == 'n') = false := by
        cases hdn : (d == 'n') with
        | false => rfl
        | true => exact absurd (by simp [hdn]) h
      rw [Bool.or_eq_false_iff]
      refine ⟨?_, ih⟩
      rcases replaceEscNl_head d rest with hh | hh
      · rw [hh]
        have : (some d == some 'n') = (d == 'n') := rfl
        rw [this, hd]
      · rw [hh]
        decide
    · rw [hasEscNl_cons_of_ne _ _ (by simpa using hc)]
      exact ih

theorem replaceEscNl_of_not_hasEscNl (l : List Char) (h : hasEscNl l = false) :
    replaceEscNl l = l := by
  induction l using replaceEscNl.induct with
  | case1 => rfl
  | case2 c => rfl
  | case3 c d rest hcd ih =>
    exfalso
    have : hasEscNl (c :: d :: rest) = false := h
    simp only [hasEscNl, Bool.or_eq_false_iff] at this
    exact absurd hcd (by simp [this.1])
  | case4 c d rest hcd ih =>
    rw [replaceEscNl, if_neg hcd, ih (hasEscNl_tail _ _ h)]

theorem drop_one_eq_tail (l : List Char) : l.drop 1 = l.tail := by
  cases l <;> rfl

theorem hasEscNl_unquote (l : List Char) (h : hasEscNl l = false) :
    hasEscNl ((l.drop 1).dropLast) = false := by
  refine hasEscNl_dropLast _ ?_
  rw [drop_one_eq_tail]
  cases l with
  | nil => rfl
  | cons c rest => exact hasEscNl_tail c rest h

theorem format_code_noEsc (s : List Char) : hasEscNl (format_code s) = false := by
  unfold format_code
  split
  · next hguard =>
    have := hguard
    simp only [Bool.and_eq_true, Bool.not_eq_true'] at this
    exact this.2
  · have h2 : hasEscNl (pyStrip (replaceEscNl s)) = false :=
      hasEscNl_pyStrip _ (hasEscNl_replaceEscNl s)
    dsimp only
    split
    · split
      · exact hasEscNl_unquote _ (hasEscNl_unquote _ h2)
      · exact hasEscNl_unquote _ h2
    · split
      · exact hasEscNl_unquote _ h2
      · exact h2

theorem format_code_fixed (r : List Char) (hesc : hasEscNl r = false)
    (h : r.contains newlineChar = true ∨
      (pyStrip r = r ∧ startsAndEndsWith r dquote = false ∧
        startsAndEndsWith r squote = false)) :
    format_code r = r := by
  have hguard : ∀ hnl : r.contains newlineChar = true, format_code r = r := by
    intro hnl
    unfold format_code
    rw [hnl, hesc]
    simp
  rcases h with hnl | ⟨h1, h2, h3⟩
  · exact hguard hnl
  · cases hx : r.contains newlineChar with
    | true => exact hguard hx
    | false =>
      unfold format_code
      rw [hx, hesc]
      dsimp only
      rw [replaceEscNl_of_not_hasEscNl r hesc, h1]
      simp [h2, h3]

/-- Claim C1 (corrected, amended form): the Code Normalizer is idempotent
on every input whose normalized form either contains a real line break,
or is already whitespace-trimmed and not surrounded by a double-quote
pair nor by a single-quote pair.  (Full idempotence fails: a second pass
can strip a further quote pair or further whitespace exposed by the
first, see the counterexample.) -/
theorem format_code_idempotent_on_normalized (s : List Char)
    (h : (format_code s).contains newlineChar = true ∨
      (pyStrip (format_code s) = format_code s ∧
        startsAndEndsWith (format_code s) dquote = false ∧
        startsAndEndsWith (format_code s) squote = false)) :
    format_code (format_code s) = format_code s :=
  format_code_fixed (format_code s) (format_code_noEsc s) h

/-- Witness for the amended C1 at the concrete input consisting of the
letter x surrounded by double quotes. -/
theorem format_code_idempotent_on_normalized_witness :
    (pyStrip (format_code (str "\"x\"")) = format_code (str "\"x\"") ∧
      startsAndEndsWith (format_code (str "\"x\"")) dquote = false ∧
      startsAndEndsWith (format_code (str "\"x\"")) squote = false) ∧
    format_code (format_code (str "\"x\"")) = format_code (str "\"x\"") :=
  ⟨by decide, format_code_idempotent_on_normalized (str "\"x\"") (Or.inr (by decide))⟩

/-- Claim C1 counterexample: normalizing the five-character string
double-quote space a space double-quote yields space a space, and
normalizing again yields the letter a alone, so
normalize (normalize s) differs from normalize s. -/
theorem format_code_not_idempotent :
    format_code (format_code (str "\" a \"")) ≠ format_code (str "\" a \"") := by
  decide

/-- Claim C5 counterexample: on the input a surrounded by two double-quote
pairs the normalizer strips only one pair, so the output still both starts
and ends with a double quote; and on the three-character input
a backslash n (an encoded line break) the output is the letter a alone,
with no literal line break,  because the decoded break is trimmed away. -/
theorem format_code_quote_counterexample :
    ((format_code (str "\"\"a\"\"")).head? = some dquote ∧
      (format_code (str "\"\"a\"\"")).getLast? = some dquote) ∧
    (hasEscNl (str "a\x5cn") = true ∧
      (format_code (str "a\x5cn")).contains newlineChar = false) := by
  decide

theorem append_left_ne_nil (l m : List Char) (h : l ≠ []) : l ++ m ≠ [] := by
  cases l with
  | nil => exact absurd rfl h
  | cons c rest => simp

theorem formatResult_is_valid (r : ValidationWithTestCases) :
    (formatResult r).is_valid = r.is_valid := by
  unfold formatResult
  split <;> rfl

theorem formatResult_of_invalid (r : ValidationWithTestCases)
    (h : r.is_valid = false) : formatResult r = r := by
  unfold formatResult
  rw [if_neg]
  intro hc
  rw [h] at hc
  exact absurd hc.1 (by simp)

theorem errorEnvelope_message_ne_nil (e : List Char) (max_retries : Nat) :
    (errorEnvelope e max_retries).message ≠ [] := by
  unfold errorEnvelope
  refine append_left_ne_nil _ _ ?_
  refine append_left_ne_nil _ _ ?_
  refine append_left_ne_nil _ _ ?_
  decide

/-- The envelope invariants the Orchestrator maintains, proved for every
world, every retry budget, every loop position and every fuel: a valid
result has test cases and all their code fields are free of escaped
newlines; an invalid result has a non-empty message; and an invalid
result either has no test cases or is an extracted envelope returned
verbatim for some model output of the world. -/
theorem processLoop_inv (world : Nat → AttemptOutcome) (max_retries : Nat) :
    ∀ fuel attempt,
      ((processLoop world max_retries attempt fuel).1.is_valid = true →
        (processLoop world max_retries attempt fuel).1.test_cases ≠ [] ∧
        ∀ tc ∈ (processLoop world max_retries attempt fuel).1.test_cases,
          hasEscNl tc.test_code = false) ∧
      ((processLoop world max_retries attempt fuel).1.is_valid = false →
        (processLoop world max_retries attempt fuel).1.message ≠ []) ∧
      ((processLoop world max_retries attempt fuel).1.is_valid = false →
        (processLoop world max_retries attempt fuel).1.test_cases = [] ∨
        ∃ n content, world n = AttemptOutcome.output content ∧
          (processLoop world max_retries attempt fuel).1 = parse_llm_response content) := by
  intro fuel
  induction fuel with
  | zero =>
    intro attempt
    rw [processLoop]
    refine ⟨?_, ?_, ?_⟩
    · intro h
      exact absurd h (by decide)
    · intro _
      decide
    · intro _
      left
      rfl
  | succ fuel ih =>
    intro attempt
    rw [processLoop]
    cases hw : world attempt with
    | raise e =>
      by_cases hlt : attempt < max_retries
      · simp only [if_pos hlt]
        exact ih (attempt + 1)
      · simp only [if_neg hlt]
        refine ⟨?_, ?_, ?_⟩
        · intro h
          simp [errorEnvelope] at h
        · intro _
          exact errorEnvelope_message_ne_nil e max_retries
        · intro _
          left
          rfl
    | output content =>
      dsimp only
      by_cases hv : (formatResult (parse_llm_response content)).is_valid = true ∧
          (formatResult (parse_llm_response content)).test_cases ≠ []
      · simp only [if_pos hv]
        have hr : (parse_llm_response content).is_valid = true := by
          rw [← formatResult_is_valid]
          exact hv.1
        have hrc : (parse_llm_response content).test_cases ≠ [] := by
          intro hnil
          refine hv.2 ?_
          unfold formatResult
          split
          · simp [hnil]
          · exact hnil
        have hform : (formatResult (parse_llm_response content)).test_cases =
            (parse_llm_response content).test_cases.map
              (fun tc => { tc with test_code := format_code tc.test_code }) := by
          unfold formatResult
          rw [if_pos ⟨hr, hrc⟩]
        refine ⟨?_, ?_, ?_⟩
        · intro _
          refine ⟨hv.2, ?_⟩
          intro tc htc
          rw [hform] at htc
          simp only [List.mem_map] at htc
          obtain ⟨tc0, _, heq⟩ := htc
          rw [← heq]
          exact format_code_noEsc tc0.test_code
        · intro h
          exact absurd hv.1 (by simp [h])
        · intro h
          exact absurd hv.1 (by simp [h])
      · simp only [if_neg hv]
        by_cases hm : (formatResult (parse_llm_response content)).is_valid = false ∧
            (formatResult (parse_llm_response content)).message ≠ []
        · simp only [if_pos hm]
          have hfr : formatResult (parse_llm_response content) = parse_llm_response content :=
            formatResult_of_invalid _ (by rw [← formatResult_is_valid]; exact hm.1)
          refine ⟨?_, ?_, ?_⟩
          · intro h
            exact absurd hm.1 (by simp [h])
          · intro _
            exact hm.2
          · intro _
            right
            exact ⟨attempt, content, hw, hfr⟩
        · simp only [if_neg hm]
          by_cases hlt : attempt < max_retries
          · simp only [if_pos hlt]
            exact ih (attempt + 1)
          · simp only [if_neg hlt]
            refine ⟨?_, ?_, ?_⟩
            · intro h
              exact absurd h (by decide)
            · intro _
              decide
            · intro _
              left
              rfl

/-- An extraction outcome with is_valid false and a non-empty message is
returned verbatim by the loop body on its own attempt, performing exactly
one model invocation and no retry. -/
theorem processLoop_invalid_immediate (world : Nat → AttemptOutcome)
    (max_retries attempt fuel : Nat) (content : List Char)
    (hw : world attempt = AttemptOutcome.output content)
    (h1 : (parse_llm_response content).is_valid = false)
    (h2 : (parse_llm_response content).message ≠ []) :
    processLoop world max_retries attempt (fuel + 1) = (parse_llm_response content, 1) := by
  have hfr : formatResult (parse_llm_response content) = parse_llm_response content :=
    formatResult_of_invalid _ h1
  rw [processLoop, hw]
  dsimp only
  rw [hfr, if_neg (by simp [h1]), if_pos ⟨h1, h2⟩]

/-- Claim C9: when an extraction attempt yields an envelope with is_valid
false and a non-empty message, the Orchestrator returns that envelope on
the same attempt with no further model invocation, regardless of the
attempt position and of how much retry budget remains. -/
theorem process_input_rejection_immediate (world : Nat → AttemptOutcome)
    (max_retries attempt fuel : Nat) (content : List Char)
    (hw : world attempt = AttemptOutcome.output content)
    (h1 : (parse_llm_response content).is_valid = false)
    (h2 : (parse_llm_response content).message ≠ []) :
    processLoop world max_retries attempt (fuel + 1) = (parse_llm_response content, 1) :=
  processLoop_invalid_immediate world max_retries attempt fuel content hw h1 h2

/-- Witness for C9: a rejection output on attempt 0 with the default
budget of 2 retries is returned at once, after a single invocation. -/
theorem process_input_rejection_immediate_witness :
    processLoop (fun _ => AttemptOutcome.output jsonRejection) 2 0 3 =
      (parse_llm_response jsonRejection, 1) :=
  process_input_rejection_immediate (fun _ => AttemptOutcome.output jsonRejection)
    2 0 2 jsonRejection rfl (by decide) (by decide)

/-- Claim C3: every envelope the generate entry point returns with
is_valid true has a non-empty test_cases list, for every sequence of
model outputs and every exception behaviour of the model invocation. -/
theorem process_input_valid_nonempty (world : Nat → AttemptOutcome) (max_retries : Nat)
    (h : (process_input world max_retries).is_valid = true) :
    (process_input world max_retries).test_cases ≠ [] :=
  ((processLoop_inv world max_retries (max_retries + 1) 0).1 h).1

/-- Witness for C3: a model that answers with one valid test case yields
a valid envelope with a non-empty test_cases list. -/
theorem process_input_valid_nonempty_witness :
    (process_input successWorld 2).test_cases ≠ [] :=
  process_input_valid_nonempty successWorld 2 (by decide)

/-- Claim C2 counterexample: when the model output itself carries
is_valid false together with a non-empty test_cases list and a non-empty
message, the generate entry point returns it unchanged, so the returned
envelope has is_valid false and non-empty test_cases, contradicting the
claimed invariant. -/
theorem process_input_invalid_nonempty_counterexample :
    (process_input (fun _ => AttemptOutcome.output jsonInvalidWithCases) 2).is_valid = false ∧
    (process_input (fun _ => AttemptOutcome.output jsonInvalidWithCases) 2).test_cases ≠ [] := by
  decide

/-- Claim C2 (corrected, amended form): an envelope returned with
is_valid false either has an empty test_cases list (this covers every
envelope the pipeline synthesizes itself) or is an extracted envelope of
one of the world's model outputs returned verbatim — and in the latter
case the code performs no emptying of test_cases, as the counterexample
shows. -/
theorem process_input_invalid_cases_amended (world : Nat → AttemptOutcome)
    (max_retries : Nat)
    (h : (process_input world max_retries).is_valid = false) :
    (process_input world max_retries).test_cases = [] ∨
    ∃ n content, world n = AttemptOutcome.output content ∧
      process_input world max_retries = parse_llm_response content :=
  (processLoop_inv world max_retries (max_retries + 1) 0).2.2 h

/-- Witness for the amended C2 at a world answering plain prose. -/
theorem process_input_invalid_cases_amended_witness :
    (process_input (fun _ => AttemptOutcome.output (str "texto sem estrutura")) 2).test_cases = [] ∨
    ∃ n content,
      (fun _ => AttemptOutcome.output (str "texto sem estrutura") : Nat → AttemptOutcome) n =
        AttemptOutcome.output content ∧
      process_input (fun _ => AttemptOutcome.output (str "texto sem estrutura")) 2 =
        parse_llm_response content :=
  process_input_invalid_cases_amended (fun _ => AttemptOutcome.output (str "texto sem estrutura"))
    2 (by decide)

/-- Claim C10: an extraction outcome with is_valid false and an empty
message is retryable, not terminal: while attempts remain the loop moves
to the next attempt, once the budget is exhausted it returns the generic
insufficient-detail envelope, and consequently every envelope generate
returns with is_valid false carries a non-empty message. -/
theorem process_input_empty_message_retryable (world : Nat → AttemptOutcome)
    (max_retries attempt fuel : Nat) (content : List Char)
    (hw : world attempt = AttemptOutcome.output content)
    (h1 : (parse_llm_response content).is_valid = false)
    (h2 : (parse_llm_response content).message = []) :
    (attempt < max_retries →
      processLoop world max_retries attempt (fuel + 1) =
        ((processLoop world max_retries (attempt + 1) fuel).1,
          (processLoop world max_retries (attempt + 1) fuel).2 + 1)) ∧
    (¬ attempt < max_retries →
      processLoop world max_retries attempt (fuel + 1) = (genericRetryFailure, 1)) ∧
    ((process_input world max_retries).is_valid = false →
      (process_input world max_retries).message ≠ []) := by
  have hfr : formatResult (parse_llm_response content) = parse_llm_response content :=
    formatResult_of_invalid _ h1
  refine ⟨?_, ?_, (processLoop_inv world max_retries (max_retries + 1) 0).2.1⟩
  · intro hlt
    rw [processLoop, hw]
    dsimp only
    rw [hfr, if_neg (by simp [h1]), if_neg (by simp [h2]), if_pos hlt]
  · intro hlt
    rw [processLoop, hw]
    dsimp only
    rw [hfr, if_neg (by simp [h1]), if_neg (by simp [h2]), if_neg hlt]

/-- Witness for C10 at a model output with is_valid false and an empty
message, on the first of three attempts. -/
theorem process_input_empty_message_retryable_witness :
    (0 < 2 →
      processLoop (fun _ => AttemptOutcome.output jsonEmptyMessage) 2 0 3 =
        ((processLoop (fun _ => AttemptOutcome.output jsonEmptyMessage) 2 1 2).1,
          (processLoop (fun _ => AttemptOutcome.output jsonEmptyMessage) 2 1 2).2 + 1)) ∧
    (¬ 0 < 2 →
      processLoop (fun _ => AttemptOutcome.output jsonEmptyMessage) 2 0 3 =
        (genericRetryFailure, 1)) ∧
    ((process_input (fun _ => AttemptOutcome.output jsonEmptyMessage) 2).is_valid = false →
      (process_input (fun _ => AttemptOutcome.output jsonEmptyMessage) 2).message ≠ []) :=
  process_input_empty_message_retryable (fun _ => AttemptOutcome.output jsonEmptyMessage)
    2 0 2 jsonEmptyMessage rfl (by decide) (by decide)

/-- The loop under a world whose outputs always extract to a valid but
empty envelope: every iteration retries, and the run ends with the
generic failure envelope after consuming the whole fuel. -/
theorem processLoop_empty_all (content : List Char)
    (h1 : (parse_llm_response content).is_valid = true)
    (h2 : (parse_llm_response content).test_cases = []) (max_retries : Nat) :
    ∀ fuel attempt, attempt + fuel = max_retries + 1 → 1 ≤ fuel →
      processLoop (fun _ => AttemptOutcome.output content) max_retries attempt fuel =
        (genericRetryFailure, fuel) := by
  have hfr : formatResult (parse_llm_response content) = parse_llm_response content := by
    unfold formatResult
    rw [if_neg]
    intro hc
    exact hc.2 h2
  intro fuel
  induction fuel with
  | zero =>
    intro attempt _ hf
    exact absurd hf (by omega)
  | succ fuel ih =>
    intro attempt hsum _
    rw [processLoop]
    dsimp only
    rw [hfr, if_neg (by simp [h2]), if_neg (by simp [h1])]
    by_cases hlt : attempt < max_retries
    · rw [if_pos hlt, ih (attempt + 1) (by omega) (by omega)]
    · rw [if_neg hlt]
      have hz : fuel = 0 := by omega
      rw [hz]

/-- Claim C6: if every model output extracts to an envelope with is_valid
true and an empty test_cases list, generate performs exactly
max_retries + 1 model invocations (three with the default budget of two
retries) and returns the generic insufficient-detail envelope. -/
theorem process_input_empty_cases_exhausts_retries (max_retries : Nat) (content : List Char)
    (h1 : (parse_llm_response content).is_valid = true)
    (h2 : (parse_llm_response content).test_cases = []) :
    process_input (fun _ => AttemptOutcome.output content) max_retries =
      genericRetryFailure ∧
    invocation_count (fun _ => AttemptOutcome.output content) max_retries =
      max_retries + 1 := by
  have h := processLoop_empty_all content h1 h2 max_retries (max_retries + 1) 0
    (by omega) (by omega)
  unfold process_input invocation_count
  rw [h]
  exact ⟨rfl, rfl⟩

/-- Witness for C6: the valid-but-empty output with the default budget —
three invocations, then the generic failure message. -/
theorem process_input_empty_cases_exhausts_retries_witness :
    process_input (fun _ => AttemptOutcome.output jsonEmptyValid) 2 =
      genericRetryFailure ∧
    invocation_count (fun _ => AttemptOutcome.output jsonEmptyValid) 2 = 2 + 1 :=
  process_input_empty_cases_exhausts_retries 2 jsonEmptyValid (by decide) (by decide)

/-- Claim C7: the Extractor is the first-success-wins chain of the strict
parse, the fenced-block strategy and the brace-span strategy, with the
synthesized terminal envelope as final default; a failing strategy never
aborts the chain, it merely passes control to the next one. -/
theorem parse_llm_response_strategy_chain (content : List Char) :
    parse_llm_response content =
      (((strictParse content).orElse (fun _ => fencedStrategy content)).orElse
        (fun _ => braceStrategy content)).getD (fallbackEnvelope content) := by
  unfold parse_llm_response
  cases strictParse content <;> cases fencedStrategy content <;>
    cases braceStrategy content <;> rfl

/-- Claim C5 (corrected, amended form): the normalizer output never
contains an escaped-newline sequence, and in every valid envelope
generate returns each test_code field is normalizer output, hence free of
escaped newlines.  (The dropped conjuncts fail: the output can still be
surrounded by quotes, and an encoded line break at the boundary can be
trimmed away — see the counterexample.) -/
theorem format_code_no_escape_amended :
    (∀ s, hasEscNl (format_code s) = false) ∧
    ∀ world max_retries,
      (process_input world max_retries).is_valid = true →
      ∀ tc ∈ (process_input world max_retries).test_cases,
        hasEscNl tc.test_code = false :=
  ⟨format_code_noEsc, fun world mr h => ((processLoop_inv world mr (mr + 1) 0).1 h).2⟩

/-- Witness for the amended C5 at the concrete escaped input and the
concrete successful world. -/
theorem format_code_no_escape_amended_witness :
    hasEscNl (format_code (str "a\x5cn")) = false ∧
    ∀ tc ∈ (process_input successWorld 2).test_cases,
      hasEscNl tc.test_code = false :=
  ⟨format_code_no_escape_amended.1 (str "a\x5cn"),
    format_code_no_escape_amended.2 successWorld 2 (by decide)⟩

theorem fallbackEnvelope_message_ne_nil (content : List Char) :
    (fallbackEnvelope content).message ≠ [] := by
  unfold fallbackEnvelope
  intro hnil
  rw [List.append_eq_nil, List.append_eq_nil] at hnil
  exact absurd hnil.1.1 (by decide)

theorem fallbackEnvelope_message_length (content : List Char) :
    (fallbackEnvelope content).message.length ≤ 55 + 200 + 3 := by
  unfold fallbackEnvelope
  have h1 : (str "Não foi possível analisar a resposta. Erro de formato: ").length = 55 := by
    decide
  have h2 : (str "...").length = 3 := by decide
  simp only [List.length_append, h1, h2, List.length_take]
  omega

/-- Claim C4 counterexample: on 250 characters of garbage the returned
message has length 258, exceeding the claimed bound of 200 characters
plus the three-character ellipsis suffix, because the fixed diagnostic
prefix of 55 characters also counts. -/
theorem process_input_garbage_length_counterexample :
    ¬ ((process_input (fun _ => AttemptOutcome.output (List.replicate 250 'x')) 2).message.length ≤
        200 + (str "...").length) := by
  decide

/-- Claim C4 (corrected, amended form): on any model output no strategy
can coerce, generate returns — without raising, the embedding being a
total function — the synthesized envelope on the very first attempt: it
has is_valid false and a non-empty message made of a fixed 55-character
diagnostic prefix, at most 200 characters of the output, and a fixed
three-character ellipsis suffix, hence of length at most 55 + 200 + 3. -/
theorem process_input_garbage_amended (world : Nat → AttemptOutcome)
    (max_retries : Nat) (content : List Char)
    (hw : world 0 = AttemptOutcome.output content)
    (hs : strictParse content = none)
    (hf : fencedStrategy content = none)
    (hb : braceStrategy content = none) :
    process_input world max_retries = fallbackEnvelope content ∧
    (process_input world max_retries).is_valid = false ∧
    (process_input world max_retries).message ≠ [] ∧
    (process_input world max_retries).message.length ≤ 55 + 200 + 3 := by
  have hp : parse_llm_response content = fallbackEnvelope content := by
    unfold parse_llm_response
    rw [hs, hf, hb]
  have hmain : process_input world max_retries = fallbackEnvelope content := by
    unfold process_input
    rw [processLoop_invalid_immediate world max_retries 0 max_retries content hw
      (by rw [hp]; rfl) (by rw [hp]; exact fallbackEnvelope_message_ne_nil content)]
    exact hp
  refine ⟨hmain, ?_, ?_, ?_⟩
  · rw [hmain]
    rfl
  · rw [hmain]
    exact fallbackEnvelope_message_ne_nil content
  · rw [hmain]
    exact fallbackEnvelope_message_length content

/-- Witness for the amended C4 at a concrete unparseable output. -/
theorem process_input_garbage_amended_witness :
    process_input (fun _ => AttemptOutcome.output (str "resposta sem estrutura")) 2 =
      fallbackEnvelope (str "resposta sem estrutura") ∧
    (process_input (fun _ => AttemptOutcome.output (str "resposta sem estrutura")) 2).is_valid
      = false ∧
    (process_input (fun _ => AttemptOutcome.output (str "resposta sem estrutura")) 2).message
      ≠ [] ∧
    (process_input (fun _ => AttemptOutcome.output (str "resposta sem estrutura")) 2).message.length
      ≤ 55 + 200 + 3 :=
  process_input_garbage_amended (fun _ => AttemptOutcome.output (str "resposta sem estrutura"))
    2 (str "resposta sem estrutura") rfl (by decide) (by decide) (by decide)

theorem contains_cons_false (a c : Char) (l : List Char)
    (h : ((a :: l).contains c) = false) :
    (c == a) = false ∧ l.contains c = false := by
  rw [List.contains_cons, Bool.or_eq_false_iff] at h
  exact h

theorem fencedGroup_append_of_no_backtick (t : List Char) :
    ∀ pre : List Char, pre.contains backtick = false →
      fencedGroup (pre ++ t) = fencedGroup t := by
  intro pre
  induction pre with
  | nil => intro _; rfl
  | cons a pre' ih =>
    intro hpre
    obtain ⟨h1, h2⟩ := contains_cons_false a backtick pre' hpre
    have ha : ¬ (a = backtick) := by
      intro he
      rw [he] at h1
      simp at h1
    rw [List.cons_append, fencedGroup, if_neg (fun hc => ha hc.1)]
    exact ih h2

theorem splitAtFence_append (rest : List Char) :
    ∀ t : List Char, t.contains backtick = false →
      splitAtFence (t ++ (backtick :: backtick :: backtick :: rest)) = some t := by
  intro t
  induction t with
  | nil =>
    intro _
    rw [List.nil_append, splitAtFence, if_pos ⟨rfl, rfl⟩]
  | cons a t' ih =>
    intro h
    obtain ⟨h1, h2⟩ := contains_cons_false a backtick t' h
    have ha : ¬ (a = backtick) := by
      intro he
      rw [he] at h1
      simp at h1
    rw [List.cons_append, splitAtFence, if_neg (fun hc => ha hc.1), ih h2]
    rfl

theorem dropWhile_append_ne (p : Char → Bool) (xs ys : List Char)
    (h : xs.dropWhile p ≠ []) :
    (xs ++ ys).dropWhile p = xs.dropWhile p ++ ys := by
  rw [List.dropWhile_append, if_neg]
  intro hc
  exact h (by simpa using hc)

theorem dropWhile_append_nil (p : Char → Bool) (xs ys : List Char)
    (h : xs.dropWhile p = []) :
    (xs ++ ys).dropWhile p = ys.dropWhile p := by
  rw [List.dropWhile_append, if_pos (by simp [h])]

theorem rdropWhile_cons_of_neg (p : Char → Bool) (a : Char) (l : List Char)
    (h : p a = false) :
    rdropWhile p (a :: l) = a :: rdropWhile p l := by
  unfold rdropWhile
  rw [List.reverse_cons]
  by_cases hx : (l.reverse).dropWhile p = []
  · rw [dropWhile_append_nil p _ _ hx, hx]
    rw [List.dropWhile_cons, if_neg (by simp [h])]
    rfl
  · rw [dropWhile_append_ne p _ _ hx, List.reverse_append]
    simp

theorem pyStrip_head_of_nonspace (a : Char) (l : List Char)
    (h : isPySpace a = false) :
    (pyStrip (a :: l)).head? = some a := by
  unfold pyStrip
  rw [List.dropWhile_cons, if_neg (by simp [h]), rdropWhile_cons_of_neg _ _ _ h]
  rfl

theorem dropWhile_idem (p : Char → Bool) (l : List Char) :
    (l.dropWhile p).dropWhile p = l.dropWhile p := by
  induction l with
  | nil => rfl
  | cons a l' ih =>
    rw [List.dropWhile_cons]
    split
    · exact ih
    · next h => rw [List.dropWhile_cons, if_neg h]

theorem pyStrip_dropWhile (l : List Char) :
    pyStrip (l.dropWhile isPySpace) = pyStrip l := by
  unfold pyStrip
  rw [dropWhile_idem]

theorem contains_dropWhile_false (p : Char → Bool) (l : List Char) (c : Char)
    (h : l.contains c = false) : (l.dropWhile p).contains c = false := by
  induction l with
  | nil => exact h
  | cons a l' ih =>
    obtain ⟨h1, h2⟩ := contains_cons_false a c l' h
    rw [List.dropWhile_cons]
    split
    · exact ih h2
    · exact h

theorem splitAtFence_dropWhile_shape (jsonText post : List Char)
    (hjt : jsonText.contains backtick = false)
    (hobj : (pyStrip jsonText).head? = some lbrace) :
    splitAtFence ((jsonText ++ (backtick :: backtick :: backtick :: post)).dropWhile isPySpace) =
      some (jsonText.dropWhile isPySpace) := by
  by_cases hnil : jsonText.dropWhile isPySpace = []
  · exfalso
    have hp : pyStrip jsonText = [] := by
      unfold pyStrip
      rw [hnil]
      rfl
    rw [hp] at hobj
    simp at hobj
  · rw [dropWhile_append_ne _ _ _ hnil]
    exact splitAtFence_append post _ (contains_dropWhile_false _ _ _ hjt)

theorem fenceMatchAt_shape (tag jsonText post : List Char)
    (htag : tag = [] ∨ tag = str "json")
    (hjt : jsonText.contains backtick = false)
    (hobj : (pyStrip jsonText).head? = some lbrace) :
    fenceMatchAt (tag ++ (jsonText ++ (backtick :: backtick :: backtick :: post))) =
      some (jsonText.dropWhile isPySpace) := by
  rcases htag with h | h
  · subst h
    rw [List.nil_append]
    unfold fenceMatchAt
    by_cases hc : (jsonText ++ (backtick :: backtick :: backtick :: post)).take 4 = str "json"
    · exfalso
      cases jsonText with
      | nil =>
        have hh := congrArg List.head? hc
        rw [List.nil_append] at hh
        have hh2 : some backtick = some 'j' := hh
        exact absurd (Option.some.inj hh2) (by decide)
      | cons a t2 =>
        have hh := congrArg List.head? hc
        rw [List.cons_append] at hh
        have ha : a = 'j' := by
          have hh2 : some a = some 'j' := hh
          exact Option.some.inj hh2
        subst ha
        rw [pyStrip_head_of_nonspace _ _ (by decide)] at hobj
        exact absurd hobj (by decide)
    · rw [if_neg hc]
      exact splitAtFence_dropWhile_shape jsonText post hjt hobj
  · subst h
    unfold fenceMatchAt
    have hc : (str "json" ++ (jsonText ++ (backtick :: backtick :: backtick :: post))).take 4 =
        str "json" := rfl
    rw [if_pos hc]
    have hd : (str "json" ++ (jsonText ++ (backtick :: backtick :: backtick :: post))).drop 4 =
        jsonText ++ (backtick :: backtick :: backtick :: post) := rfl
    rw [hd]
    exact splitAtFence_dropWhile_shape jsonText post hjt hobj

theorem fencedGroup_embedded (pre tag jsonText post : List Char)
    (hpre : pre.contains backtick = false)
    (htag : tag = [] ∨ tag = str "json")
    (hjt : jsonText.contains backtick = false)
    (hobj : (pyStrip jsonText).head? = some lbrace) :
    fencedGroup (pre ++ str "```" ++ tag ++ jsonText ++ str "```" ++ post) =
      some (jsonText.dropWhile isPySpace) := by
  have hbt : str "```" = [backtick, backtick, backtick] := by decide
  have hassoc : pre ++ str "```" ++ tag ++ jsonText ++ str "```" ++ post =
      pre ++ (backtick :: backtick :: backtick ::
        (tag ++ (jsonText ++ (backtick :: backtick :: backtick :: post)))) := by
    simp [hbt, List.append_assoc]
  rw [hassoc, fencedGroup_append_of_no_backtick _ pre hpre, fencedGroup, if_pos ⟨rfl, rfl⟩]
  rw [show (backtick :: backtick ::
      (tag ++ (jsonText ++ (backtick :: backtick :: backtick :: post)))).drop 2 =
      tag ++ (jsonText ++ (backtick :: backtick :: backtick :: post)) from rfl]
  rw [fenceMatchAt_shape tag jsonText post htag hjt hobj]

/-- Claim C8: for every text made of backtick-free prose, then a fenced
code block (optionally tagged json) whose backtick-free content is a JSON
object that parses and validates to an envelope, then arbitrary trailing
text, if the strict first strategy fails on the whole text then the
Extractor returns exactly the embedded envelope through its second
strategy. -/
theorem parse_llm_response_fenced_recovery (pre tag jsonText post : List Char)
    (env : ValidationWithTestCases)
    (htag : tag = [] ∨ tag = str "json")
    (hpre : pre.contains backtick = false)
    (hjt : jsonText.contains backtick = false)
    (hobj : (pyStrip jsonText).head? = some lbrace)
    (hparse : (jsonLoads (pyStrip jsonText)).bind validateEnv = some env)
    (hstrict : strictParse (pre ++ str "```" ++ tag ++ jsonText ++ str "```" ++ post) = none) :
    parse_llm_response (pre ++ str "```" ++ tag ++ jsonText ++ str "```" ++ post) = env := by
  have hfg := fencedGroup_embedded pre tag jsonText post hpre htag hjt hobj
  have hps : pyStrip (jsonText.dropWhile isPySpace) = pyStrip jsonText :=
    pyStrip_dropWhile jsonText
  unfold parse_llm_response
  rw [hstrict]
  unfold fencedStrategy
  rw [hfg]
  simp only [Option.some_bind]
  rw [hps, hparse]

/-- Witness for C8: a concrete response with prose around a tagged fenced
block holding an empty valid envelope. -/
theorem parse_llm_response_fenced_recovery_witness :
    parse_llm_response (str "Aqui esta o resultado:\n" ++ str "```" ++ str "json" ++
        str "\n\x7b\"is_valid\": true, \"message\": \"\", \"test_cases\": []\x7d\n" ++
        str "```" ++ str "\nEspero que ajude.") =
      ⟨true, [], []⟩ :=
  parse_llm_response_fenced_recovery (str "Aqui esta o resultado:\n") (str "json")
    (str "\n\x7b\"is_valid\": true, \"message\": \"\", \"test_cases\": []\x7d\n")
    (str "\nEspero que ajude.") ⟨true, [], []⟩ (Or.inr rfl) (by decide) (by decide)
    (by decide) (by decide) (by decide)

end QAAI
